import Mathlib

/-!
Verification development for the IntentionMail email-analysis backend
(`src/backend/app.py`).  The Python source is shallowly embedded: strings
become `List Char`, bytes become `List Nat`, JSON values become an inductive
type, and the external collaborators (PDF extraction libraries, the HTML
stripper, the `json` module and the generative-model client) are abstract
function parameters.  Python whitespace, `\w` and lowercasing are modelled on
their ASCII behaviour (plus the common Unicode whitespace code points), which
covers every concrete input used below.
-/

namespace EmailAnalyzer

/-- Characters treated as whitespace by Python's `str.strip`, `str.isspace`
and the regex class `\s` (ASCII whitespace plus the common Unicode
whitespace code points). -/
def isPySpace (c : Char) : Bool :=
  c = ' ' || c = '\t' || c = '\n' || c = '\x0d' || c = '\x0b' || c = '\x0c' ||
  c = '\x1c' || c = '\x1d' || c = '\x1e' || c = '\x1f' ||
  c = '\x85' || c = '\xa0' || c = '\u1680' ||
  ('\u2000' ≤ c && c ≤ '\u200a') ||
  c = '\u2028' || c = '\u2029' || c = '\u202f' || c = '\u205f' || c = '\u3000'

/-- Characters on which Python's `str.splitlines` breaks lines. -/
def isLineBreakChar (c : Char) : Bool :=
  c = '\n' || c = '\x0d' || c = '\x0b' || c = '\x0c' ||
  c = '\x1c' || c = '\x1d' || c = '\x1e' ||
  c = '\x85' || c = '\u2028' || c = '\u2029'

/-- `str.strip()`: remove leading and trailing Python whitespace. -/
def pyStrip (l : List Char) : List Char :=
  ((l.dropWhile isPySpace).reverse.dropWhile isPySpace).reverse

/-- Fuelled worker for `str.splitlines`: `acc` holds the current line
reversed.  `\r\n` counts as a single break; a trailing break produces no
extra line. -/
def pySplitlinesGo : Nat → List Char → List Char → List (List Char)
  | 0, _, acc => if acc = [] then [] else [acc.reverse]
  | _ + 1, [], acc => if acc = [] then [] else [acc.reverse]
  | n + 1, c :: cs, acc =>
    if c = '\x0d' then
      if cs.head? = some '\n' then acc.reverse :: pySplitlinesGo n cs.tail []
      else acc.reverse :: pySplitlinesGo n cs []
    else if isLineBreakChar c then acc.reverse :: pySplitlinesGo n cs []
    else pySplitlinesGo n cs (c :: acc)

/-- `str.splitlines` (`raw.splitlines()` in `clean_email_text`). -/
def pySplitlines (l : List Char) : List (List Char) :=
  pySplitlinesGo l.length l []

/-- Python's substring test `needle in haystack`. -/
def containsSeq (n : List Char) : List Char → Bool
  | [] => n.isEmpty
  | c :: t => n.isPrefixOf (c :: t) || containsSeq n t

/-- `str.lower()` character by character (ASCII model of Python lowercasing,
using core `Char.toLower`). -/
def lowerL (l : List Char) : List Char := l.map Char.toLower

/-- The heuristic of `clean_email_text` line 119: the raw text is treated as
HTML when it contains `<html`, `<div` or `<br` case-insensitively. -/
def hasHtmlMarker (l : List Char) : Bool :=
  containsSeq "<html".data (lowerL l) || containsSeq "<div".data (lowerL l) ||
    containsSeq "<br".data (lowerL l)

/-- The alternatives of `HEADER_RE` (app.py line 108). -/
def headerWords : List (List Char) :=
  ["from", "de", "to", "para", "subject", "assunto", "date", "data", "cc",
   "bcc", "reply-to", "message-id", "received"].map String.data

/-- `HEADER_RE.match(line)` as a Boolean: some header label is a prefix of
the lowercased line and is followed by `\s*` and a colon.  Backtracking
through `\s*` reaches a colon exactly when the first character after the
whitespace run is a colon, because a colon is not whitespace. -/
def headerMatch (l : List Char) : Bool :=
  headerWords.any fun w =>
    w.isPrefixOf (lowerL l) &&
      (((lowerL l).drop w.length).dropWhile isPySpace).head? == some ':'

/-- Negation of `isPySpace`, the regex class `\S`. -/
def nonSpace (c : Char) : Bool := !isPySpace c

/-- Does `https?://\S+` match at the start of `l`?  The first seven (or
eight) characters are the literal scheme, and `\S+` needs at least one
non-whitespace character after `//`. -/
def urlAt (l : List Char) : Bool :=
  ("http://".data.isPrefixOf l && ((l.drop 7).head?.any nonSpace)) ||
  ("https://".data.isPrefixOf l && ((l.drop 8).head?.any nonSpace))

/-- Fuelled worker for `re.sub(r"https?://\S+", " ", text)`: scan left to
right; at a match, the greedy `\S+` extends over the whole maximal
non-whitespace run, which is replaced by a single space. -/
def removeUrlsGo : Nat → List Char → List Char
  | 0, l => l
  | _ + 1, [] => []
  | n + 1, c :: cs =>
    if urlAt (c :: cs) then ' ' :: removeUrlsGo n (cs.dropWhile nonSpace)
    else c :: removeUrlsGo n cs

/-- `re.sub(r"https?://\S+", " ", text)` (app.py line 140). -/
def removeUrls (l : List Char) : List Char := removeUrlsGo l.length l

/-- The characters kept by `re.sub(r"[^\w\s\-.,!?;:()]", " ", text)`:
word characters (ASCII model of `\w`), whitespace, and the listed
punctuation. -/
def keepChar (c : Char) : Bool :=
  c.isAlphanum || c = '_' || isPySpace c ||
    ['-', '.', ',', '!', '?', ';', ':', '(', ')'].contains c

/-- `re.sub(r"[^\w\s\-.,!?;:()]", " ", text)` (app.py line 141): each
character outside the class becomes a single space. -/
def charFilter (l : List Char) : List Char :=
  l.map fun c => if keepChar c then c else ' '

/-- Fuelled worker for `re.sub(r"\s{2,}", " ", text)`: two adjacent
whitespace characters merge into one space, so every maximal run of two or
more whitespace characters collapses to a single `' '`; a lone whitespace
character is left unchanged. -/
def collapseWsGo : Nat → List Char → List Char
  | 0, l => l
  | _ + 1, [] => []
  | _ + 1, [c] => [c]
  | n + 1, c :: d :: rest =>
    if isPySpace c && isPySpace d then collapseWsGo n (' ' :: rest)
    else c :: collapseWsGo n (d :: rest)

/-- `re.sub(r"\s{2,}", " ", text)` (app.py line 142). -/
def collapseWs (l : List Char) : List Char := collapseWsGo l.length l

/-- `" ".join(lines)` (app.py line 139). -/
def joinSpace : List (List Char) → List Char
  | [] => []
  | [l] => l
  | l :: ls => l ++ ' ' :: joinSpace ls

/-- The per-line filter of `clean_email_text` (app.py lines 123-134) applied
to an already stripped line: drop empty lines, header lines, quoted lines
(starting with `>`), and lines shorter than three characters. -/
def keptLine (l : List Char) : Bool :=
  !l.isEmpty && !headerMatch l && l.head? != some '>' && decide (3 ≤ l.length)

/-- The body of `clean_email_text` after the HTML heuristic (app.py lines
122-148): split into lines, strip and filter them, join with spaces, remove
URLs, filter characters, collapse whitespace runs, strip, and apply the
length-10 floor. -/
def cleanCore (raw : List Char) : List Char :=
  let lines := ((pySplitlines raw).map pyStrip).filter keptLine
  if lines = [] then []
  else
    let t := pyStrip (collapseWs (charFilter (removeUrls (joinSpace lines))))
    if t.length < 10 then [] else t

/-- `clean_email_text` (app.py lines 113-148).  `stripHtml` abstracts the
external `strip_html` helper (BeautifulSoup `get_text`), which is only
invoked when the HTML heuristic fires. -/
def clean_email_text (stripHtml : List Char → List Char) (raw : List Char) :
    List Char :=
  if raw = [] then []
  else if hasHtmlMarker raw then cleanCore (stripHtml raw)
  else cleanCore raw

/-! ## Document Decoder (app.py lines 151-197) -/

/-- `bytes.decode("latin-1", errors="ignore")`: every byte maps to the
character with the same code point, so decoding never fails.  Bytes are
naturals below 256; the `% 256` only keeps the function total. -/
def latin1Decode (data : List Nat) : List Char :=
  data.map fun b => Char.ofNat (b % 256)

/-- The acceptance test of `read_pdf` strategies 3 and 4 (app.py lines 174
and 182): `text_content and len(text_content.strip()) > 100`. -/
def acceptLong (t : List Char) : Bool :=
  !t.isEmpty && decide (100 < (pyStrip t).length)

/-- A PDF extraction strategy (PyPDF2 / pdfminer are external libraries):
either a result string or a raised exception message. -/
abbrev PdfExtractor := List Nat → Except (List Char) (List Char)

/-- Strategies 3 and 4 of `read_pdf` (app.py lines 172-189): raw UTF-8
decoding with `errors="ignore"` (which never raises, so the surrounding
`except` is unreachable), then Latin-1, each accepted via `acceptLong`;
otherwise the empty string. -/
def readPdfTextFallback (utf8dec : List Nat → List Char) (data : List Nat) :
    List Char :=
  let t := utf8dec data
  if acceptLong t then t
  else
    let u := latin1Decode data
    if acceptLong u then u else []

/-- Strategy 2 of `read_pdf` (app.py lines 164-170): pdfminer extraction,
accepted when its stripped output is non-empty; an exception falls through. -/
def readPdfAfterFirst (ex2 : PdfExtractor) (utf8dec : List Nat → List Char)
    (data : List Nat) : List Char :=
  match ex2 data with
  | .ok c => if pyStrip c = [] then readPdfTextFallback utf8dec data else c
  | .error _ => readPdfTextFallback utf8dec data

/-- `read_pdf` (app.py lines 151-189): ordered fallback chain PyPDF2 →
pdfminer → UTF-8 → Latin-1 → empty string.  Every strategy exception is
caught and the chain proceeds. -/
def read_pdf (ex1 ex2 : PdfExtractor) (utf8dec : List Nat → List Char)
    (data : List Nat) : List Char :=
  match ex1 data with
  | .ok c => if pyStrip c = [] then readPdfAfterFirst ex2 utf8dec data else c
  | .error _ => readPdfAfterFirst ex2 utf8dec data

/-! ## Classification client (app.py lines 200-249) -/

/-- JSON values as produced by `json.loads` (numbers modelled as rationals,
Python `None` as `jnull`). -/
inductive JVal where
  | jnull
  | jbool (b : Bool)
  | jnum (q : ℚ)
  | jstr (s : List Char)
  | jarr (elems : List JVal)
  | jobj (fields : List (List Char × JVal))

instance {ε α : Type} [DecidableEq ε] [DecidableEq α] :
    DecidableEq (Except ε α) := fun x y =>
  match x, y with
  | .ok a, .ok b =>
    if h : a = b then isTrue (by rw [h])
    else isFalse fun hh => h (Except.ok.inj hh)
  | .error a, .error b =>
    if h : a = b then isTrue (by rw [h])
    else isFalse fun hh => h (Except.error.inj hh)
  | .ok _, .error _ => isFalse fun hh => Except.noConfusion hh
  | .error _, .ok _ => isFalse fun hh => Except.noConfusion hh

/-- Python truthiness of a JSON-derived value (`if not v`, `x or y`). -/
def pyTruthy : JVal → Bool
  | .jnull => false
  | .jbool b => b
  | .jnum q => q != 0
  | .jstr s => !s.isEmpty
  | .jarr elems => !elems.isEmpty
  | .jobj fields => !fields.isEmpty

/-- `dict.get(key)` on a parsed JSON object; with duplicate keys the last
occurrence wins, as in `json.loads`. -/
def objGet (fields : List (List Char × JVal)) (k : List Char) : Option JVal :=
  ((fields.filter fun kv => kv.1 == k).getLast?).map fun kv => kv.2

/-- Exceptions the normalization block can raise. -/
inductive PyExc where
  | typeError
  | valueError
  | attributeError
deriving DecidableEq, Repr

/-- Value of a string of decimal digits. -/
def decDigitsVal (l : List Char) : Nat :=
  l.foldl (fun a c => a * 10 + (c.toNat - 48)) 0

/-- Python `float(string)` on plain decimal literals: optional surrounding
whitespace, optional sign, digits with an optional fractional part
(`"1"`, `"1."`, `".5"`, `"0.7"`); anything else is a `ValueError` (the
model omits exponents and the `inf`/`nan` spellings, which no claim
exercises). -/
def parseFloatChars (s : List Char) : Option ℚ :=
  let core := fun (u : List Char) =>
    let ip := u.takeWhile Char.isDigit
    match u.drop ip.length with
    | [] => if ip.isEmpty then none else some ((decDigitsVal ip : ℚ))
    | '.' :: fr =>
      if fr.all Char.isDigit && !(ip.isEmpty && fr.isEmpty) then
        some ((decDigitsVal ip : ℚ) + (decDigitsVal fr : ℚ) / ((10 : ℚ) ^ fr.length))
      else none
    | _ => none
  match pyStrip s with
  | '+' :: r => core r
  | '-' :: r => (core r).map fun q => -q
  | t => core t

/-- Python `float(v)` on a JSON-derived value: numbers pass through,
booleans become 0/1, numeric strings are parsed, everything else raises
(`TypeError` for `None`/lists/objects, `ValueError` for non-numeric
strings). -/
def pyFloat : JVal → Except PyExc ℚ
  | .jnum q => .ok q
  | .jbool b => .ok (if b then 1 else 0)
  | .jstr s =>
    match parseFloatChars s with
    | some q => .ok q
    | none => .error .valueError
  | _ => .error .typeError

/-- The misspelling map of `normalize_intent` (app.py lines 203-204). -/
def intentMapping : List (List Char × List Char) :=
  [("duvida", "dúvida"), ("agradecimentos", "agradecimento"),
   ("felicitacao", "felicitações"), ("felicitacoes", "felicitações")].map
    fun p => (p.1.data, p.2.data)

/-- The seven canonical intents (app.py line 206). -/
def canonicalIntents : List (List Char) :=
  ["status", "anexo", "suporte", "dúvida", "felicitações", "agradecimento",
   "outros"].map String.data

/-- `normalize_intent` (app.py lines 200-206) on the raw JSON field value:
falsy values give `"outros"`; a truthy string is stripped, lowercased,
mapped through `intentMapping` and checked against the canonical set; a
truthy non-string raises `AttributeError` at `v.strip()`. -/
def normalize_intent (v : JVal) : Except PyExc (List Char) :=
  if !pyTruthy v then .ok "outros".data
  else
    match v with
    | .jstr s =>
      let t := lowerL (pyStrip s)
      let t2 :=
        match intentMapping.find? fun kv => kv.1 == t with
        | some kv => kv.2
        | none => t
      .ok (if canonicalIntents.contains t2 then t2 else "outros".data)
    | _ => .error .attributeError

/-- `category = data.get("category", "Improdutivo")` followed by the
membership check (app.py lines 243-244); never raises. -/
def normalize_category (o : Option JVal) : List Char :=
  match o.getD (.jstr "Improdutivo".data) with
  | .jstr s =>
    if s == "Produtivo".data || s == "Improdutivo".data then s
    else "Improdutivo".data
  | _ => "Improdutivo".data

/-- `reply = (data.get("suggested_reply") or "").strip() or "Obrigado pela
mensagem!"` (app.py line 247): a falsy field value yields the default; a
truthy string is stripped (empty after stripping also yields the default);
a truthy non-string raises `AttributeError` at `.strip()`. -/
def normalize_reply (g : JVal) : Except PyExc (List Char) :=
  if pyTruthy g then
    match g with
    | .jstr s =>
      let t := pyStrip s
      .ok (if t.isEmpty then "Obrigado pela mensagem!".data else t)
    | _ => .error .attributeError
  else .ok "Obrigado pela mensagem!".data

/-- The structured result of `classify_with_gemini` (app.py lines 248-249);
`intent` is the `metadata.intent` field. -/
structure ClassificationResult where
  category : List Char
  confidence : ℚ
  suggested_reply : List Char
  intent : List Char
deriving DecidableEq, Repr

/-- The post-parse normalization block of `classify_with_gemini` (app.py
lines 243-249), in source order: category, intent, confidence (default
`0.7` when the key is absent), suggested reply. -/
def normalize_result (data : List (List Char × JVal)) :
    Except PyExc ClassificationResult := do
  let category := normalize_category (objGet data "category".data)
  let intent ← normalize_intent ((objGet data "intent".data).getD .jnull)
  let conf ← pyFloat ((objGet data "confidence".data).getD (.jnum (7 / 10)))
  let reply ← normalize_reply ((objGet data "suggested_reply".data).getD .jnull)
  return ⟨category, conf, reply, intent⟩

/-- `parse_json_strict` (app.py lines 220-224): locate the first `{`
(`str.find`) and the last `}` (`str.rfind`), both `-1` when absent; raise
unless both exist with `start < end`; otherwise parse `text[start:end+1]`
with `json.loads` (abstracted as `jloads`, errors as messages). -/
def parse_json_strict (jloads : List Char → Except (List Char) JVal)
    (text : List Char) : Except (List Char) JVal :=
  let start : Int :=
    match text.findIdx? fun c => c == '{' with
    | some i => (i : Int)
    | none => -1
  let stop : Int :=
    match text.reverse.findIdx? fun c => c == '}' with
    | some j => ((text.length - 1 - j : Nat) : Int)
    | none => -1
  if start = -1 || stop = -1 || stop ≤ start then
    .error "Resposta não contém JSON.".data
  else jloads ((text.drop start.toNat).take (stop.toNat + 1 - start.toNat))

/-! ## FastAPI endpoints (app.py lines 266-355) -/

/-- The external collaborators of the two endpoints: the PDF extraction
libraries, the UTF-8 byte decoder, BeautifulSoup's text extraction, the
`json` module and the full Gemini round trip of `classify_with_gemini`
(whose exception is carried as a message). -/
structure Env where
  ex1 : PdfExtractor
  ex2 : PdfExtractor
  utf8dec : List Nat → List Char
  stripHtml : List Char → List Char
  jloads : List Char → Except (List Char) JVal
  classify : List Char → Except (List Char) ClassificationResult

/-- An uploaded file: filename plus raw bytes. -/
structure FileEnt where
  filename : List Char
  content : List Nat

/-- The error responses of the endpoints (`HTTPException`s plus a
propagated classification failure in the single-item flow). -/
inductive ApiError where
  | missingInput
  | unsupportedFormat
  | emptyContent
  | invalidTexts
  | noValidItems
  | classifyFailure (msg : List Char)
deriving DecidableEq

/-- `filename.lower().endswith((".pdf", ".txt"))`. -/
def supportedName (name : List Char) : Bool :=
  ".pdf".data.isSuffixOf (lowerL name) || ".txt".data.isSuffixOf (lowerL name)

/-- `read_file_bytes_to_text` (app.py lines 191-197): the PDF chain for
`.pdf` filenames, otherwise UTF-8 with `errors="ignore"` (which never
raises, so the Latin-1 `except` branch is unreachable). -/
def read_file_bytes_to_text (env : Env) (filename : List Char)
    (data : List Nat) : List Char :=
  if ".pdf".data.isSuffixOf (lowerL filename) then
    read_pdf env.ex1 env.ex2 env.utf8dec data
  else env.utf8dec data

/-- The shared tail of `/api/analyze` (app.py lines 278-282): clean, reject
empty content, classify. -/
def analyzeContent (env : Env) (raw : List Char) :
    Except ApiError ClassificationResult :=
  let content := clean_email_text env.stripHtml raw
  if content = [] then .error .emptyContent
  else (env.classify content).mapError ApiError.classifyFailure

/-- `/api/analyze` (app.py lines 266-282): missing-input check, then the
file branch (with its extension check) or the text branch. -/
def analyze (env : Env) (text : Option (List Char)) (file : Option FileEnt) :
    Except ApiError ClassificationResult :=
  if (match text with | none => true | some s => s.isEmpty) && file.isNone then
    .error .missingInput
  else
    match file with
    | some f =>
      if supportedName f.filename then
        analyzeContent env (read_file_bytes_to_text env f.filename f.content)
      else .error .unsupportedFormat
    | none => analyzeContent env (text.getD [])

/-- `BatchItem` (app.py line 304/321): id plus cleaned content. -/
structure BatchItem where
  id : List Char
  content : List Char
deriving DecidableEq, Repr

/-- A `BatchResult` (app.py lines 343-353): a classification result tagged
with the item id, or the degraded failure placeholder. -/
structure BatchResult where
  id : List Char
  category : List Char
  confidence : ℚ
  suggested_reply : List Char
  intent : List Char
deriving DecidableEq, Repr

/-- The text loop of `analyze_batch` (app.py lines 302-304): element `i`
becomes an item exactly when it is a string with non-whitespace content
(`isinstance(t, str) and t.strip()`); its content is the Normalizer output,
appended even when that output is empty. -/
def buildTextItemsGo (env : Env) : Nat → List JVal → List BatchItem
  | _, [] => []
  | i, v :: rest =>
    (match v with
     | .jstr s =>
       if !(pyStrip s).isEmpty then
         [⟨"text-".data ++ (Nat.repr i).data, clean_email_text env.stripHtml s⟩]
       else []
     | _ => []) ++ buildTextItemsGo env (i + 1) rest

/-- Items contributed by the `texts` field, ids `text-<index>`. -/
def buildTextItems (env : Env) (elems : List JVal) : List BatchItem :=
  buildTextItemsGo env 0 elems

/-- The file loop of `analyze_batch` (app.py lines 306-329): default name
`file-<i>`, extension and non-empty checks, decode, clean, include only
when the cleaned content is non-empty. -/
def fileItemsGo (env : Env) : Nat → List FileEnt → List BatchItem
  | _, [] => []
  | i, f :: rest =>
    (let name :=
      if f.filename = [] then "file-".data ++ (Nat.repr i).data else f.filename
    if supportedName name && !f.content.isEmpty then
      let content := read_file_bytes_to_text env name f.content
      if content ≠ [] then
        let cleaned := clean_email_text env.stripHtml content
        if cleaned ≠ [] then [⟨name, cleaned⟩] else []
      else []
    else []) ++ fileItemsGo env (i + 1) rest

/-- Items contributed by uploaded files. -/
def fileItems (env : Env) (files : List FileEnt) : List BatchItem :=
  fileItemsGo env 0 files

/-- One iteration of the result loop of `analyze_batch` (app.py lines
340-353): a successful classification is tagged with the item id; any
exception is caught and becomes the degraded placeholder result. -/
def processItem (env : Env) (item : BatchItem) : BatchResult :=
  match env.classify item.content with
  | .ok r => ⟨item.id, r.category, r.confidence, r.suggested_reply, r.intent⟩
  | .error e =>
    ⟨item.id, "Improdutivo".data, 0, "Erro ao processar: ".data ++ e,
      "outros".data⟩

/-- The result loop of `analyze_batch` (app.py lines 339-353). -/
def batchLoop (env : Env) : List BatchItem → List BatchResult
  | [] => []
  | item :: rest => processItem env item :: batchLoop env rest

/-- `/api/analyze_batch` (app.py lines 284-355): parse the `texts` field
when it is non-empty (any `json.loads` failure or non-list result raises
the 400 `invalidTexts` error before the file loop runs), collect items
from both sources, fail with `noValidItems` when none remain, and return
the count plus per-item results. -/
def analyze_batch (env : Env) (texts : Option (List Char))
    (files : List FileEnt) : Except ApiError (Nat × List BatchResult) :=
  let textsStage : Except ApiError (List BatchItem) :=
    match texts with
    | some s =>
      if s ≠ [] then
        match env.jloads s with
        | .ok (.jarr elems) => .ok (buildTextItems env elems)
        | .ok _ => .error .invalidTexts
        | .error _ => .error .invalidTexts
      else .ok []
    | none => .ok []
  match textsStage with
  | .error e => .error e
  | .ok items1 =>
    let items := items1 ++ fileItems env files
    if items = [] then .error .noValidItems
    else
      let results := batchLoop env items
      .ok (results.length, results)

/-! ## Predicates used to state the claims, and concrete collaborator
instances used by witnesses and counterexamples -/

/-- A field value on which the normalization of `intent` or
`suggested_reply` cannot raise: falsy, or a string. -/
def strOrFalsy (v : JVal) : Prop := pyTruthy v = false ∨ ∃ s, v = .jstr s

/-- A `confidence` slot on which `float(...)` cannot raise: absent, or
convertible. -/
def floatConvertible (o : Option JVal) : Prop :=
  o = none ∨ ∃ v, o = some v ∧ ∃ q, pyFloat v = .ok q

/-- A PDF extraction strategy that produced no usable content: it raised,
or its output strips to empty (`if content.strip():` fails). -/
def strategyFails : Except (List Char) (List Char) → Prop
  | .error _ => True
  | .ok c => pyStrip c = []

/-- Modelled from the spec: the acceptance measure the spec ascribes to
decode strategies 3 and 4, the number of non-whitespace characters of the
decoded text ("accepted only if resulting non-whitespace length > 100").
The code instead tests `len(text.strip())`, which counts interior
whitespace; this definition exists to compare the two. -/
def specNonWsLength (t : List Char) : Nat := (t.filter nonSpace).length

/-- Position `i` holds the first `{` of `t` (`text.find("{") == i`). -/
def firstBraceAt (t : List Char) (i : Nat) : Prop :=
  t[i]? = some '{' ∧ ∀ j < i, t[j]? ≠ some '{'

/-- Position `k` holds the last `}` of `t` (`text.rfind("}") == k`). -/
def lastBraceAt (t : List Char) (k : Nat) : Prop :=
  t[k]? = some '}' ∧ ∀ j < t.length, k < j → t[j]? ≠ some '}'

/-- A PDF extractor that always raises. -/
def noExtract : PdfExtractor := fun _ => .error "boom".data

/-- A fixed successful classification result (integer confidence so that
concrete equalities evaluate by kernel reduction). -/
def okResult : ClassificationResult :=
  ⟨"Produtivo".data, 1, "Ok.".data, "status".data⟩

/-- Concrete collaborator bundle: extraction raises, UTF-8 decoding returns
the fixed text `utf8out`, HTML stripping is the identity, `json.loads`
always raises, classification returns `okResult` except on contents listed
in `failOn`, where it raises with message `"boom"`. -/
def mkEnv (utf8out : List Char) (failOn : List (List Char)) : Env where
  ex1 := noExtract
  ex2 := noExtract
  utf8dec := fun _ => utf8out
  stripHtml := id
  jloads := fun _ => .error "Expecting value".data
  classify := fun c =>
    if failOn.contains c then .error "boom".data else .ok okResult

/-- A decoded text whose stripped length exceeds 100 although it has only
two non-whitespace characters: `"a"`, 200 spaces, `"b"`. -/
def sparseText : List Char := 'a' :: (List.replicate 200 ' ' ++ ['b'])

/-- Adjacent-character relation: not both characters are whitespace.  A
list that is `Chain'` for this relation is in the normal form produced by
the `\s{2,}` collapse. -/
def noTwoSpace (a b : Char) : Prop :=
  ¬ (isPySpace a = true ∧ isPySpace b = true)

/-! # Theorems -/

/-- C10: in `/api/analyze`, when a file is supplied the `text` form field
never influences the outcome: the missing-input guard already passes
because the file is present, and the content is produced from the file
branch alone. -/
theorem analyze_file_overrides_text (env : Env) (t t' : Option (List Char))
    (f : FileEnt) : analyze env t (some f) = analyze env t' (some f) := by
  simp [analyze]

/-- The result loop of `analyze_batch` is a pointwise map. -/
theorem batchLoop_eq_map (env : Env) (items : List BatchItem) :
    batchLoop env items = items.map (processItem env) := by
  induction items with
  | nil => rfl
  | cons item rest ih => simp [batchLoop, ih]

/-- C8: batch classification isolates failures per item: the result list
has one entry per item in discovery order; a successful classification of
item `i` yields its tagged result, and a failing one yields the degraded
placeholder (`Improdutivo`, confidence `0`, the error message inside
`suggested_reply`, intent `outros`, the item's id) without affecting any
other position. -/
theorem batch_failure_isolation (env : Env) (items : List BatchItem) :
    (batchLoop env items).length = items.length ∧
    ∀ (i : Nat) (item : BatchItem), items[i]? = some item →
      (∀ r, env.classify item.content = .ok r →
        (batchLoop env items)[i]? =
          some ⟨item.id, r.category, r.confidence, r.suggested_reply,
            r.intent⟩) ∧
      (∀ e, env.classify item.content = .error e →
        (batchLoop env items)[i]? =
          some ⟨item.id, "Improdutivo".data, 0,
            "Erro ao processar: ".data ++ e, "outros".data⟩) := by
  refine ⟨by simp [batchLoop_eq_map], ?_⟩
  intro i item hitem
  have hm : (batchLoop env items)[i]? = some (processItem env item) := by
    rw [batchLoop_eq_map, List.getElem?_map, hitem, Option.map_some']
  constructor
  · intro r hr
    rw [hm]
    simp [processItem, hr]
  · intro e he
    rw [hm]
    simp [processItem, he]

/-- Witness for C8 at a concrete batch: three items, the middle one's
classification raises, the other two succeed. -/
theorem batch_failure_isolation_witness :
    (batchLoop (mkEnv [] [] ) [⟨"text-0".data, "aa".data⟩,
        ⟨"text-1".data, "bb".data⟩, ⟨"text-2".data, "cc".data⟩]).length = 3 ∧
    (batchLoop (mkEnv [] ["bb".data])
        [⟨"text-0".data, "aa".data⟩, ⟨"text-1".data, "bb".data⟩,
         ⟨"text-2".data, "cc".data⟩])[1]? =
      some ⟨"text-1".data, "Improdutivo".data, 0,
        "Erro ao processar: boom".data, "outros".data⟩ := by
  constructor
  · exact (batch_failure_isolation (mkEnv [] []) _).1.trans (by decide)
  · exact ((batch_failure_isolation (mkEnv [] ["bb".data]) _).2 1
      ⟨"text-1".data, "bb".data⟩ (by decide)).2 "boom".data (by decide) |>.trans
      (by decide)

/-- C4 counterexample: a payload with `confidence: 5` produces a result
whose confidence is `5`, outside `[0, 1]`. -/
theorem confidence_not_clamped_counterexample :
    (normalize_result [("confidence".data, .jnum 5)]).map
        (fun r => r.confidence) = .ok 5 ∧ ¬ ((5 : ℚ) ≤ 1) := by
  exact ⟨by decide, by norm_num⟩

/-- C4 (amended): the confidence of a normalized result is the float cast
of the payload's `confidence` field, passed through without clamping: when
the field holds the number `q`, the result's confidence is exactly `q`,
whatever `q` is. -/
theorem confidence_passthrough (data : List (List Char × JVal)) (q : ℚ)
    (r : ClassificationResult)
    (hconf : objGet data "confidence".data = some (.jnum q))
    (hok : normalize_result data = .ok r) : r.confidence = q := by
  simp only [normalize_result, Bind.bind, Except.bind, Pure.pure,
    Except.pure, hconf, Option.getD_some, pyFloat] at hok
  rcases hi : normalize_intent ((objGet data "intent".data).getD .jnull) with
    e | intent <;> rw [hi] at hok
  · cases hok
  · rcases hr : normalize_reply
        ((objGet data "suggested_reply".data).getD .jnull) with e | reply <;>
      rw [hr] at hok
    · cases hok
    · injection hok with h
      rw [← h]

/-- On a falsy or string field value, `normalize_intent` returns without
raising. -/
theorem normalize_intent_ok_of {v : JVal} (h : strOrFalsy v) :
    ∃ s, normalize_intent v = .ok s := by
  rcases h with h | ⟨s, rfl⟩
  · exact ⟨"outros".data, by simp [normalize_intent, h]⟩
  · unfold normalize_intent
    by_cases ht : pyTruthy (.jstr s) <;> simp [ht]

/-- On a falsy or string field value, `normalize_reply` returns without
raising. -/
theorem normalize_reply_ok_of {v : JVal} (h : strOrFalsy v) :
    ∃ s, normalize_reply v = .ok s := by
  rcases h with h | ⟨s, rfl⟩
  · exact ⟨"Obrigado pela mensagem!".data, by simp [normalize_reply, h]⟩
  · unfold normalize_reply
    by_cases ht : pyTruthy (.jstr s) <;> simp [ht]

/-- On an absent or convertible `confidence` slot, the float cast returns a
value, and the absent case returns the default `0.7`. -/
theorem pyFloat_default_of {o : Option JVal} (h : floatConvertible o) :
    ∃ q, pyFloat (o.getD (.jnum (7 / 10))) = .ok q ∧
      (o = none → q = 7 / 10) := by
  rcases h with rfl | ⟨v, rfl, q, hq⟩
  · exact ⟨7 / 10, rfl, fun _ => rfl⟩
  · exact ⟨q, by simpa using hq, fun hn => by cases hn⟩

/-- `normalize_category` always yields one of the two category labels. -/
theorem normalize_category_valid (o : Option JVal) :
    normalize_category o = "Produtivo".data ∨
      normalize_category o = "Improdutivo".data := by
  unfold normalize_category
  rcases o.getD (.jstr "Improdutivo".data) with _ | _ | _ | s | _ | _
  · exact Or.inr rfl
  · exact Or.inr rfl
  · exact Or.inr rfl
  · change (if (s == "Produtivo".data || s == "Improdutivo".data) = true
        then s else "Improdutivo".data) = "Produtivo".data ∨
      (if (s == "Produtivo".data || s == "Improdutivo".data) = true
        then s else "Improdutivo".data) = "Improdutivo".data
    by_cases h : (s == "Produtivo".data || s == "Improdutivo".data) = true
    · rw [if_pos h]
      rcases Bool.or_eq_true_iff.mp h with h1 | h1
      · exact Or.inl (eq_of_beq h1)
      · exact Or.inr (eq_of_beq h1)
    · rw [if_neg h]
      exact Or.inr rfl
  · exact Or.inr rfl
  · exact Or.inr rfl

/-- A successful `normalize_intent` yields one of the seven canonical
intents. -/
theorem normalize_intent_mem {v : JVal} {s : List Char}
    (h : normalize_intent v = .ok s) : s ∈ canonicalIntents := by
  unfold normalize_intent at h
  split at h
  · cases h
    decide
  · rcases v with _ | _ | _ | s0 | _ | _
    · cases h
    · cases h
    · cases h
    · simp only at h
      cases h
      split
      · next h2 => exact List.mem_of_elem_eq_true h2
      · decide
    · cases h
    · cases h

/-- C3 (amended): the post-parse normalization block cannot raise provided
the `intent` and `suggested_reply` fields are absent, falsy or strings, and
the `confidence` field is absent or float-convertible (a number, a boolean,
or a numeric string).  The result is structurally valid — the category is
one of the two labels and the intent one of the seven canonical intents —
and the confidence defaults to `0.7` when the field is absent.  (When
`confidence` is present but not float-convertible, e.g. a non-numeric
string or null, the block raises: see the counterexample.) -/
theorem normalization_no_raise_when_wellformed
    (data : List (List Char × JVal))
    (hI : strOrFalsy ((objGet data "intent".data).getD .jnull))
    (hR : strOrFalsy ((objGet data "suggested_reply".data).getD .jnull))
    (hC : floatConvertible (objGet data "confidence".data)) :
    ∃ r, normalize_result data = .ok r ∧
      (r.category = "Produtivo".data ∨ r.category = "Improdutivo".data) ∧
      r.intent ∈ canonicalIntents ∧
      (objGet data "confidence".data = none → r.confidence = 7 / 10) := by
  obtain ⟨intent, hi⟩ := normalize_intent_ok_of hI
  obtain ⟨reply, hr⟩ := normalize_reply_ok_of hR
  obtain ⟨q, hq, hdef⟩ := pyFloat_default_of hC
  refine ⟨⟨normalize_category (objGet data "category".data), q, reply,
    intent⟩, ?_, normalize_category_valid _, normalize_intent_mem hi,
    fun hn => hdef hn⟩
  simp only [normalize_result, Bind.bind, Except.bind, Pure.pure,
    Except.pure, hi, hq, hr]

/-- Witness for C3 on the empty payload: every field absent, normalization
succeeds with the default confidence. -/
theorem normalization_no_raise_witness :
    ∃ r, normalize_result [] = .ok r ∧
      (r.category = "Produtivo".data ∨ r.category = "Improdutivo".data) ∧
      r.intent ∈ canonicalIntents ∧
      (objGet [] "confidence".data = none → r.confidence = 7 / 10) :=
  normalization_no_raise_when_wellformed [] (Or.inl rfl) (Or.inl rfl)
    (Or.inl rfl)

/-- C3 counterexample: the block does raise on a parsed JSON object whose
`confidence` is a non-numeric string (`ValueError`) or null (`TypeError`),
refuting "never raises". -/
theorem normalization_raises_counterexample :
    normalize_result [("confidence".data, .jstr "high".data)] =
      .error .valueError ∧
    normalize_result [("confidence".data, .jnull)] = .error .typeError := by
  exact ⟨by decide, by decide⟩

/-- Witness for C4 at `confidence: 5`. -/
theorem confidence_passthrough_witness :
    normalize_result [("confidence".data, .jnum 5)] =
      .ok ⟨"Improdutivo".data, 5, "Obrigado pela mensagem!".data,
        "outros".data⟩ ∧
    (⟨"Improdutivo".data, 5, "Obrigado pela mensagem!".data,
        "outros".data⟩ : ClassificationResult).confidence = 5 := by
  refine ⟨by decide, ?_⟩
  exact confidence_passthrough [("confidence".data, .jnum 5)] 5 _ rfl (by decide)

/-- When the first two strategies fail (exception or whitespace-only
output), `read_pdf` reaches the raw-decoding fallbacks. -/
theorem read_pdf_of_strategyFails (ex1 ex2 : PdfExtractor)
    (utf8dec : List Nat → List Char) (data : List Nat)
    (h1 : strategyFails (ex1 data)) (h2 : strategyFails (ex2 data)) :
    read_pdf ex1 ex2 utf8dec data = readPdfTextFallback utf8dec data := by
  unfold read_pdf readPdfAfterFirst
  rcases hx : ex1 data with e | c
  · rcases hy : ex2 data with e2 | c2
    · rfl
    · rw [hy] at h2
      have h2' : pyStrip c2 = [] := h2
      simp [h2']
  · rw [hx] at h1
    have h1' : pyStrip c = [] := h1
    rcases hy : ex2 data with e2 | c2
    · simp [h1']
    · rw [hy] at h2
      have h2' : pyStrip c2 = [] := h2
      simp [h1', h2']

/-- The acceptance test of strategies 3 and 4 in propositional form:
non-empty decoded text whose stripped length exceeds 100. -/
theorem acceptLong_iff (t : List Char) :
    acceptLong t = true ↔ (t ≠ [] ∧ 100 < (pyStrip t).length) := by
  simp [acceptLong, List.isEmpty_iff]

/-- C5 (amended): in the PDF fallback chain, once the two structured
extractions have failed, the raw UTF-8 decoding is accepted if and only if
the decoded text is non-empty and its length after stripping leading and
trailing whitespace exceeds 100 (interior whitespace counts, unlike the
spec's "non-whitespace length"); the Latin-1 decoding is then accepted
under the same test, and otherwise the chain returns the empty string. -/
theorem read_pdf_stripped_length_acceptance (ex1 ex2 : PdfExtractor)
    (utf8dec : List Nat → List Char) (data : List Nat)
    (h1 : strategyFails (ex1 data)) (h2 : strategyFails (ex2 data)) :
    (utf8dec data ≠ [] ∧ 100 < (pyStrip (utf8dec data)).length →
      read_pdf ex1 ex2 utf8dec data = utf8dec data) ∧
    (¬ (utf8dec data ≠ [] ∧ 100 < (pyStrip (utf8dec data)).length) →
      (latin1Decode data ≠ [] ∧ 100 < (pyStrip (latin1Decode data)).length →
        read_pdf ex1 ex2 utf8dec data = latin1Decode data) ∧
      (¬ (latin1Decode data ≠ [] ∧
          100 < (pyStrip (latin1Decode data)).length) →
        read_pdf ex1 ex2 utf8dec data = [])) := by
  rw [read_pdf_of_strategyFails ex1 ex2 utf8dec data h1 h2]
  unfold readPdfTextFallback
  refine ⟨fun hu => ?_, fun hnu => ⟨fun hl => ?_, fun hnl => ?_⟩⟩
  · rw [if_pos ((acceptLong_iff _).mpr hu)]
  · rw [if_neg (fun hb => hnu ((acceptLong_iff _).mp hb)),
      if_pos ((acceptLong_iff _).mpr hl)]
  · rw [if_neg (fun hb => hnu ((acceptLong_iff _).mp hb)),
      if_neg (fun hb => hnl ((acceptLong_iff _).mp hb))]

set_option maxRecDepth 10000 in
/-- Witness for C5: failing extractors, UTF-8 decode yielding `sparseText`
(stripped length 202 > 100), accepted. -/
theorem read_pdf_stripped_length_acceptance_witness :
    read_pdf noExtract noExtract (fun _ => sparseText) [] = sparseText :=
  (read_pdf_stripped_length_acceptance noExtract noExtract
    (fun _ => sparseText) [] trivial trivial).1 ⟨by decide, by decide⟩

set_option maxRecDepth 10000 in
/-- C5 counterexample: `sparseText` (two non-whitespace characters amid 200
interior spaces) is accepted by the chain although its non-whitespace
length is 2, not more than 100 — the code tests `len(text.strip())`, not
the non-whitespace length the claim states. -/
theorem read_pdf_nonws_acceptance_counterexample :
    read_pdf noExtract noExtract (fun _ => sparseText) [] = sparseText ∧
    specNonWsLength sparseText = 2 ∧ ¬ (100 < specNonWsLength sparseText) := by
  exact ⟨by decide, by decide, by decide⟩

/-- C6: the Document Decoder's PDF chain catches every strategy failure and
returns the empty string when no strategy produces accepted content: both
structured extractions raise or yield whitespace-only text, and neither raw
decoding passes the acceptance test.  (The model is a total function: every
fallible call in `read_pdf` sits inside a `try/except` in the source, and
the raw decodings use `errors="ignore"`, so the decoder never raises.) -/
theorem read_pdf_total_exhaustion_empty (ex1 ex2 : PdfExtractor)
    (utf8dec : List Nat → List Char) (data : List Nat)
    (h1 : strategyFails (ex1 data)) (h2 : strategyFails (ex2 data))
    (h3 : acceptLong (utf8dec data) = false)
    (h4 : acceptLong (latin1Decode data) = false) :
    read_pdf ex1 ex2 utf8dec data = [] := by
  rw [read_pdf_of_strategyFails ex1 ex2 utf8dec data h1 h2]
  unfold readPdfTextFallback
  rw [if_neg (by simp [h3]), if_neg (by simp [h4])]

/-- Witness for C6: everything fails, the decoder returns the empty
string. -/
theorem read_pdf_total_exhaustion_empty_witness :
    read_pdf noExtract noExtract (fun _ => []) [] = [] :=
  read_pdf_total_exhaustion_empty noExtract noExtract (fun _ => []) []
    trivial trivial (by decide) (by decide)

/-- `str.find`-style characterization: `findIdx?` for a character equality
test returns `i` exactly when position `i` holds the character and no
earlier position does. -/
theorem findIdx?_char_iff (c : Char) (t : List Char) (i : Nat) :
    t.findIdx? (fun x => x == c) = some i ↔
      (t[i]? = some c ∧ ∀ j < i, t[j]? ≠ some c) := by
  rw [List.findIdx?_eq_some_iff_findIdx_eq]
  constructor
  · rintro ⟨hlen, hidx⟩
    obtain ⟨h1, h2⟩ := (List.findIdx_eq hlen).mp hidx
    refine ⟨?_, ?_⟩
    · rw [List.getElem?_eq_getElem hlen, eq_of_beq h1]
    · intro j hj hcon
      obtain ⟨hjl, hja⟩ := List.getElem?_eq_some.mp hcon
      have hfalse := h2 j hj
      rw [hja] at hfalse
      simp at hfalse
  · rintro ⟨h1, h2⟩
    obtain ⟨hlen, hget⟩ := List.getElem?_eq_some.mp h1
    refine ⟨hlen, (List.findIdx_eq hlen).mpr ⟨?_, ?_⟩⟩
    · rw [hget]
      exact beq_self_eq_true c
    · intro j hji
      by_contra hb
      rw [Bool.not_eq_false] at hb
      exact h2 j hji
        (by rw [List.getElem?_eq_getElem (lt_trans hji hlen), eq_of_beq hb])

/-- `str.rfind`, forward direction: a last occurrence at `k` makes the
reversed search find index `length - 1 - k`. -/
theorem rfind_char_eq_some (c : Char) (t : List Char) (k : Nat)
    (h1 : t[k]? = some c) (h2 : ∀ j < t.length, k < j → t[j]? ≠ some c) :
    t.reverse.findIdx? (fun x => x == c) = some (t.length - 1 - k) := by
  obtain ⟨hk, _⟩ := List.getElem?_eq_some.mp h1
  rw [findIdx?_char_iff]
  constructor
  · rw [List.getElem?_reverse (by omega)]
    have hidx : t.length - 1 - (t.length - 1 - k) = k := by omega
    rw [hidx, h1]
  · intro j hj hcon
    have hjlen : j < t.length := by
      have := t.length_reverse
      omega
    rw [List.getElem?_reverse hjlen] at hcon
    exact h2 (t.length - 1 - j) (by omega) (by omega) hcon

/-- `str.rfind`, backward direction: a successful reversed search at index
`j` exhibits the last occurrence at `length - 1 - j`. -/
theorem rfind_char_last (c : Char) (t : List Char) (j : Nat)
    (h : t.reverse.findIdx? (fun x => x == c) = some j) :
    j < t.length ∧ t[t.length - 1 - j]? = some c ∧
      ∀ i < t.length, t.length - 1 - j < i → t[i]? ≠ some c := by
  obtain ⟨h1, h2⟩ := (findIdx?_char_iff c t.reverse j).mp h
  have hjlen : j < t.length := by
    have := (List.getElem?_eq_some.mp h1).1
    simpa using this
  refine ⟨hjlen, ?_, ?_⟩
  · rw [List.getElem?_reverse hjlen] at h1
    exact h1
  · intro i hi hki hcon
    have hrev : t.reverse[t.length - 1 - i]? = some c := by
      rw [List.getElem?_reverse (by omega)]
      have hidx : t.length - 1 - (t.length - 1 - i) = i := by omega
      rw [hidx]
      exact hcon
    exact h2 (t.length - 1 - i) (by omega) hrev

/-- C7: `parse_json_strict` parses exactly the region between the first `{`
and the last `}`: when the first `{` sits at `i`, the last `}` at `k`, and
`i < k`, the slice `text[i:k+1]` is handed to `json.loads` (whose own
failure on invalid JSON is the remaining error source); in every other case
— no `{`, no `}`, or the last `}` not after the first `{` — it raises the
no-JSON `ValueError`. -/
theorem parse_json_strict_spec (jl : List Char → Except (List Char) JVal)
    (t : List Char) :
    (∀ i k, firstBraceAt t i → lastBraceAt t k → i < k →
      parse_json_strict jl t = jl ((t.drop i).take (k + 1 - i))) ∧
    ((¬ ∃ i k, firstBraceAt t i ∧ lastBraceAt t k ∧ i < k) →
      parse_json_strict jl t = .error "Resposta não contém JSON.".data) := by
  constructor
  · intro i k hf hl hik
    have hfind : t.findIdx? (fun x => x == '{') = some i :=
      (findIdx?_char_iff '{' t i).mpr hf
    have hk : k < t.length := (List.getElem?_eq_some.mp hl.1).1
    have hrfind : t.reverse.findIdx? (fun x => x == '}') =
        some (t.length - 1 - k) := rfind_char_eq_some '}' t k hl.1 hl.2
    unfold parse_json_strict
    rw [hfind, hrfind]
    have hstop : ((t.length - 1 - (t.length - 1 - k) : Nat) : Int) = (k : Int) := by
      omega
    simp only [hstop]
    rw [if_neg (by simp; omega)]
    simp [Int.toNat_ofNat]
  · intro hn
    unfold parse_json_strict
    rcases hx : t.findIdx? (fun x => x == '{') with _ | i
    · simp
    · rcases hy : t.reverse.findIdx? (fun x => x == '}') with _ | j
      · simp
      · obtain ⟨hf1, hf2⟩ := (findIdx?_char_iff '{' t i).mp hx
        obtain ⟨hjlen, hl1, hl2⟩ := rfind_char_last '}' t j hy
        have hnik : ¬ (i < t.length - 1 - j) := fun hik =>
          hn ⟨i, t.length - 1 - j, ⟨hf1, hf2⟩, ⟨hl1, hl2⟩, hik⟩
        rw [if_pos (by simp; omega)]

/-- Witness for C7 on `"ab{x:1}cd"`: first `{` at 2, last `}` at 6, the
slice `{x:1}` is parsed. -/
theorem parse_json_strict_spec_witness :
    parse_json_strict (fun s => .ok (.jstr s)) "ab{x:1}cd".data =
      .ok (.jstr "{x:1}".data) := by
  have h := (parse_json_strict_spec (fun s => .ok (.jstr s))
      "ab{x:1}cd".data).1 2 6 ⟨by decide, by decide⟩ ⟨by decide, by decide⟩
      (by decide)
  exact h.trans rfl

/-- C9 (amended): a non-empty `texts` field that fails to parse as JSON or
parses to a non-list makes `analyze_batch` fail with the invalid-`texts`
client error whatever files were uploaded — the guard runs before the file
loop, so no file influences the outcome and no results are produced. -/
theorem batch_invalid_texts_guard (env : Env) (s : List Char)
    (files : List FileEnt) (hs : s ≠ [])
    (hbad : (∃ e, env.jloads s = .error e) ∨
      ∃ v, env.jloads s = .ok v ∧ ∀ elems, v ≠ .jarr elems) :
    analyze_batch env (some s) files = .error .invalidTexts := by
  unfold analyze_batch
  rcases hbad with ⟨e, he⟩ | ⟨v, hv, hne⟩
  · simp [hs, he]
  · rcases v with _ | b | q | s2 | elems | fields
    · simp [hs, hv]
    · simp [hs, hv]
    · simp [hs, hv]
    · simp [hs, hv]
    · exact absurd rfl (hne elems)
    · simp [hs, hv]

/-- Witness for C9: `texts = "["` with a failing `json.loads` and no
files. -/
theorem batch_invalid_texts_guard_witness :
    analyze_batch (mkEnv [] []) (some "[".data) [] = .error .invalidTexts :=
  batch_invalid_texts_guard (mkEnv [] []) "[".data [] (by decide)
    (Or.inl ⟨"Expecting value".data, rfl⟩)

/-- C9 counterexample: an empty-string `texts` field is present and is not
valid JSON, yet the batch does not fail with the invalid-`texts` error:
the `if texts:` truthiness guard skips the parse, the uploaded file is
decoded and classified, and the call returns one result. -/
theorem batch_empty_texts_processes_files_counterexample :
    (mkEnv "hello world ok".data []).jloads [] =
      .error "Expecting value".data ∧
    analyze_batch (mkEnv "hello world ok".data []) (some [])
        [⟨"a.txt".data, [1]⟩] =
      .ok (1, [⟨"a.txt".data, "Produtivo".data, 1, "Ok.".data,
        "status".data⟩]) := by
  exact ⟨rfl, by decide⟩

/-- C2 (amended): the batch text loop turns element `i` into a `BatchItem`
with id `text-<i>` and content equal to the Text Normalizer's output
exactly when the element is a string with some non-whitespace character;
non-strings and whitespace-only strings are excluded.  An element whose
normalization yields empty is NOT excluded: it still becomes a `BatchItem`
(with empty content) and is classified — only the raw `t.strip()` test
decides exclusion. -/
theorem text_items_characterization (env : Env) (elems : List JVal) :
    buildTextItems env elems = elems.enum.filterMap fun p =>
      match p.2 with
      | .jstr s =>
        if (pyStrip s).isEmpty then none
        else some ⟨"text-".data ++ (Nat.repr p.1).data,
          clean_email_text env.stripHtml s⟩
      | _ => none := by
  have key : ∀ (i : Nat) (es : List JVal),
      buildTextItemsGo env i es = (es.enumFrom i).filterMap fun p =>
        match p.2 with
        | .jstr s =>
          if (pyStrip s).isEmpty then none
          else some ⟨"text-".data ++ (Nat.repr p.1).data,
            clean_email_text env.stripHtml s⟩
        | _ => none := by
    intro i es
    induction es generalizing i with
    | nil => rfl
    | cons v rest ih =>
      rcases v with _ | b | q | s | elems2 | fields
      · simp [buildTextItemsGo, List.enumFrom_cons, ih]
      · simp [buildTextItemsGo, List.enumFrom_cons, ih]
      · simp [buildTextItemsGo, List.enumFrom_cons, ih]
      · by_cases he : pyStrip s = [] <;>
          simp [buildTextItemsGo, List.enumFrom_cons, List.filterMap_cons, ih,
            he, List.isEmpty_iff]
      · simp [buildTextItemsGo, List.enumFrom_cons, ih]
      · simp [buildTextItemsGo, List.enumFrom_cons, ih]
  exact key 0 elems

/-- C2 counterexample: `texts = ["ab"]` — the element is a non-whitespace
string whose normalization yields the empty string (below the length-10
floor), and it still produces a `BatchItem` (with empty content) instead of
being excluded. -/
theorem text_items_keep_empty_normalization_counterexample :
    buildTextItems (mkEnv [] []) [.jstr "ab".data] = [⟨"text-0".data, []⟩] ∧
    clean_email_text id "ab".data = [] := by
  exact ⟨by decide, by decide⟩

/-! ## Lemmas about the Text Normalizer, towards the idempotence claim -/

/-- `str.strip` only removes characters. -/
theorem mem_pyStrip {c : Char} {l : List Char} (h : c ∈ pyStrip l) : c ∈ l := by
  unfold pyStrip at h
  rw [List.mem_reverse] at h
  have h2 := (List.dropWhile_sublist isPySpace).subset h
  rw [List.mem_reverse] at h2
  exact (List.dropWhile_sublist isPySpace).subset h2

/-- Every character of the filtered text is in the kept class. -/
theorem mem_charFilter_keep {c : Char} {l : List Char}
    (h : c ∈ charFilter l) : keepChar c = true := by
  unfold charFilter at h
  obtain ⟨x, _, hfx⟩ := List.mem_map.mp h
  by_cases hk : keepChar x = true
  · rw [if_pos hk] at hfx
    rw [← hfx]
    exact hk
  · rw [if_neg hk] at hfx
    rw [← hfx]
    decide

/-- Characters of the filtered text come from the input or are spaces. -/
theorem mem_charFilter_orig {c : Char} {l : List Char}
    (h : c ∈ charFilter l) : c ∈ l ∨ c = ' ' := by
  unfold charFilter at h
  obtain ⟨x, hx, hfx⟩ := List.mem_map.mp h
  by_cases hk : keepChar x = true
  · rw [if_pos hk] at hfx
    exact Or.inl (hfx ▸ hx)
  · rw [if_neg hk] at hfx
    exact Or.inr hfx.symm

/-- Characters of the whitespace-collapsed text come from the input or are
spaces. -/
theorem mem_collapseWsGo (n : Nat) : ∀ (l : List Char) {c : Char},
    c ∈ collapseWsGo n l → c ∈ l ∨ c = ' ' := by
  induction n with
  | zero =>
    intro l c h
    exact Or.inl h
  | succ n ih =>
    intro l c h
    rcases l with _ | ⟨a, l2⟩
    · rw [collapseWsGo] at h
      cases h
    · rcases l2 with _ | ⟨d, rest⟩
      · rw [collapseWsGo] at h
        exact Or.inl h
      · rw [collapseWsGo] at h
        split at h
        · rcases ih _ h with h2 | h2
          · rcases List.mem_cons.mp h2 with rfl | h3
            · exact Or.inr rfl
            · exact Or.inl (List.mem_cons_of_mem a (List.mem_cons_of_mem d h3))
          · exact Or.inr h2
        · rcases List.mem_cons.mp h with rfl | h2
          · exact Or.inl (List.mem_cons_self _ _)
          · rcases ih _ h2 with h3 | h3
            · exact Or.inl (List.mem_cons_of_mem a h3)
            · exact Or.inr h3

/-- Characters of the URL-scrubbed text come from the input or are
spaces. -/
theorem mem_removeUrlsGo (n : Nat) : ∀ (l : List Char) {c : Char},
    c ∈ removeUrlsGo n l → c ∈ l ∨ c = ' ' := by
  induction n with
  | zero =>
    intro l c h
    exact Or.inl h
  | succ n ih =>
    intro l c h
    rcases l with _ | ⟨a, cs⟩
    · rw [removeUrlsGo] at h
      cases h
    · rw [removeUrlsGo] at h
      split at h
      · rcases List.mem_cons.mp h with rfl | h2
        · exact Or.inr rfl
        · rcases ih _ h2 with h3 | h3
          · exact Or.inl (List.mem_cons_of_mem a
              ((List.dropWhile_sublist nonSpace).subset h3))
          · exact Or.inr h3
      · rcases List.mem_cons.mp h with rfl | h2
        · exact Or.inl (List.mem_cons_self _ _)
        · rcases ih _ h2 with h3 | h3
          · exact Or.inl (List.mem_cons_of_mem a h3)
          · exact Or.inr h3

/-- Characters of the joined text come from one of the lines or are the
inserted spaces. -/
theorem mem_joinSpace : ∀ (L : List (List Char)) {c : Char},
    c ∈ joinSpace L → (∃ l ∈ L, c ∈ l) ∨ c = ' ' := by
  intro L
  induction L with
  | nil =>
    intro c h
    rw [joinSpace] at h
    cases h
  | cons l ls ih =>
    intro c h
    rcases ls with _ | ⟨l2, ls2⟩
    · exact Or.inl ⟨l, List.mem_cons_self l [], h⟩
    · have hj : joinSpace (l :: l2 :: ls2) = l ++ ' ' :: joinSpace (l2 :: ls2) :=
        rfl
      rw [hj] at h
      rcases List.mem_append.mp h with h1 | h1
      · exact Or.inl ⟨l, List.mem_cons_self l _, h1⟩
      · rcases List.mem_cons.mp h1 with rfl | h2
        · exact Or.inr rfl
        · rcases ih h2 with ⟨l3, hl3, hc3⟩ | h3
          · exact Or.inl ⟨l3, List.mem_cons_of_mem l hl3, hc3⟩
          · exact Or.inr h3

/-- Line-break characters are whitespace. -/
theorem isPySpace_of_break {c : Char} (h : isLineBreakChar c = true) :
    isPySpace c = true := by
  unfold isLineBreakChar at h
  unfold isPySpace
  simp only [Bool.or_eq_true, decide_eq_true_eq] at h ⊢
  tauto

/-- Lines produced by `splitlines` contain no line-break characters. -/
theorem pySplitlinesGo_no_break : ∀ (n : Nat) (l acc : List Char),
    (∀ c ∈ acc, isLineBreakChar c = false) →
    ∀ m ∈ pySplitlinesGo n l acc, ∀ c ∈ m, isLineBreakChar c = false := by
  intro n
  induction n with
  | zero =>
    intro l acc hacc m hm c hc
    rw [pySplitlinesGo] at hm
    split at hm
    · cases hm
    · rcases List.mem_singleton.mp hm with rfl
      exact hacc c (List.mem_reverse.mp hc)
  | succ n ih =>
    intro l acc hacc m hm c hc
    rcases l with _ | ⟨a, cs⟩
    · rw [pySplitlinesGo] at hm
      split at hm
      · cases hm
      · rcases List.mem_singleton.mp hm with rfl
        exact hacc c (List.mem_reverse.mp hc)
    · rw [pySplitlinesGo] at hm
      split at hm
      · split at hm <;>
        · rcases List.mem_cons.mp hm with rfl | h2
          · exact hacc c (List.mem_reverse.mp hc)
          · exact ih _ _ (fun x hx => absurd hx (List.not_mem_nil x)) m h2 c hc
      · split at hm
        · rcases List.mem_cons.mp hm with rfl | h2
          · exact hacc c (List.mem_reverse.mp hc)
          · exact ih _ _ (fun x hx => absurd hx (List.not_mem_nil x)) m h2 c hc
        · next hbr =>
          refine ih _ _ ?_ m hm c hc
          intro x hx
          rcases List.mem_cons.mp hx with rfl | h3
          · exact Bool.not_eq_true _ |>.mp hbr
          · exact hacc x h3

/-- Wrapper of the previous lemma for `pySplitlines`. -/
theorem pySplitlines_no_break (l : List Char) :
    ∀ m ∈ pySplitlines l, ∀ c ∈ m, isLineBreakChar c = false :=
  pySplitlinesGo_no_break l.length l []
    (fun x hx => absurd hx (List.not_mem_nil x))

/-- `splitlines` of a non-empty break-free string is that single line. -/
theorem pySplitlinesGo_all_clean : ∀ (n : Nat) (l acc : List Char),
    l.length ≤ n → (∀ c ∈ l, isLineBreakChar c = false) →
    pySplitlinesGo n l acc =
      if acc = [] ∧ l = [] then [] else [acc.reverse ++ l] := by
  intro n
  induction n with
  | zero =>
    intro l acc hlen _
    have hl : l = [] := List.length_eq_zero.mp (Nat.le_zero.mp hlen)
    subst hl
    rw [pySplitlinesGo]
    by_cases ha : acc = [] <;> simp [ha]
  | succ n ih =>
    intro l acc hlen hnb
    rcases l with _ | ⟨a, cs⟩
    · rw [pySplitlinesGo]
      by_cases ha : acc = [] <;> simp [ha]
    · have hba : isLineBreakChar a = false := hnb a (List.mem_cons_self a cs)
      have hra : ¬ (a = '\x0d') := by
        intro h
        rw [h] at hba
        exact absurd hba (by decide)
      rw [pySplitlinesGo, if_neg hra, if_neg (by simp [hba]),
        ih cs (a :: acc) (by simp at hlen; omega)
          (fun x hx => hnb x (List.mem_cons_of_mem a hx))]
      simp

/-- `pySplitlines` of a non-empty break-free string. -/
theorem pySplitlines_single {l : List Char} (hne : l ≠ [])
    (hnb : ∀ c ∈ l, isLineBreakChar c = false) : pySplitlines l = [l] := by
  unfold pySplitlines
  rw [pySplitlinesGo_all_clean l.length l [] le_rfl hnb]
  simp [hne]

/-- `dropWhile` does nothing when the head does not satisfy the
predicate. -/
theorem dropWhile_self_of_head {p : Char → Bool} {l : List Char}
    (h : ∀ a, l.head? = some a → p a = false) : l.dropWhile p = l := by
  cases l with
  | nil => rfl
  | cons a t =>
    rw [List.dropWhile_cons, if_neg (by rw [h a rfl]; exact Bool.false_ne_true)]

/-- The head of a `dropWhile` result does not satisfy the predicate. -/
theorem head?_dropWhile_false {p : Char → Bool} {l : List Char} {a : Char}
    (h : (l.dropWhile p).head? = some a) : p a = false := by
  have hh := List.head?_dropWhile_not p l
  rw [h] at hh
  exact hh

/-- `dropWhile` is idempotent. -/
theorem dropWhile_idem (p : Char → Bool) (l : List Char) :
    (l.dropWhile p).dropWhile p = l.dropWhile p :=
  dropWhile_self_of_head fun _ ha => head?_dropWhile_false ha

/-- A non-empty suffix has the same last element. -/
theorem getLast?_of_suffix {l₁ l : List Char} (h : l₁ <:+ l)
    (hne : l₁ ≠ []) : l₁.getLast? = l.getLast? := by
  obtain ⟨t, rfl⟩ := h
  rw [List.getLast?_append]
  rcases hx : l₁.getLast? with _ | b
  · exact absurd (List.getLast?_eq_none_iff.mp hx) hne
  · rfl

/-- `str.strip()` is idempotent. -/
theorem pyStrip_idem (l : List Char) : pyStrip (pyStrip l) = pyStrip l := by
  unfold pyStrip
  generalize hA : l.dropWhile isPySpace = A
  have h1 : (A.reverse.dropWhile isPySpace).reverse.dropWhile isPySpace =
      (A.reverse.dropWhile isPySpace).reverse := by
    apply dropWhile_self_of_head
    intro a ha
    have hBne : A.reverse.dropWhile isPySpace ≠ [] := by
      intro hB0
      rw [hB0] at ha
      cases ha
    have hg : (A.reverse.dropWhile isPySpace).getLast? = A.reverse.getLast? :=
      getLast?_of_suffix (List.dropWhile_suffix _) hBne
    rw [List.head?_reverse, hg, List.getLast?_reverse] at ha
    exact head?_dropWhile_false (hA ▸ ha)
  rw [h1, List.reverse_reverse, dropWhile_idem]

/-- The head of `collapseWsGo` can only be whitespace when the input's head
already was. -/
theorem collapseWsGo_head_space (n : Nat) (l : List Char) {a : Char}
    (h : (collapseWsGo n l).head? = some a) (hsp : isPySpace a = true) :
    ∃ b, l.head? = some b ∧ isPySpace b = true := by
  rcases n with _ | n
  · exact ⟨a, h, hsp⟩
  · rcases l with _ | ⟨c, l2⟩
    · rw [collapseWsGo] at h
      cases h
    · rcases l2 with _ | ⟨d, rest⟩
      · rw [collapseWsGo] at h
        exact ⟨c, rfl, by rw [show c = a from Option.some.inj h]; exact hsp⟩
      · rw [collapseWsGo] at h
        split at h
        · next hcd => exact ⟨c, rfl, (Bool.and_eq_true_iff.mp hcd).1⟩
        · exact ⟨c, rfl, by rw [show c = a from Option.some.inj h]; exact hsp⟩

/-- The output of the whitespace collapse has no two adjacent whitespace
characters. -/
theorem chain'_collapseWsGo (n : Nat) : ∀ (l : List Char), l.length ≤ n →
    List.Chain' noTwoSpace (collapseWsGo n l) := by
  induction n with
  | zero =>
    intro l hl
    have h0 : l = [] := List.length_eq_zero.mp (Nat.le_zero.mp hl)
    subst h0
    rw [collapseWsGo]
    exact List.chain'_nil
  | succ n ih =>
    intro l hl
    rcases l with _ | ⟨c, l2⟩
    · rw [collapseWsGo]
      exact List.chain'_nil
    · rcases l2 with _ | ⟨d, rest⟩
      · rw [collapseWsGo]
        exact List.chain'_singleton c
      · rw [collapseWsGo]
        split
        · exact ih (' ' :: rest) (by simp at hl ⊢; omega)
        · next hcd =>
          rw [List.chain'_cons']
          refine ⟨?_, ih (d :: rest) (by simp at hl ⊢; omega)⟩
          intro y hy
          intro hcon
          obtain ⟨b, hb, hbs⟩ := collapseWsGo_head_space n (d :: rest) hy
            hcon.2
          exact hcd (Bool.and_eq_true_iff.mpr ⟨hcon.1, by
            rw [show d = b from Option.some.inj hb]; exact hbs⟩)

/-- `pyStrip` preserves the no-two-adjacent-spaces property. -/
theorem chain'_pyStrip {l : List Char} (h : List.Chain' noTwoSpace l) :
    List.Chain' noTwoSpace (pyStrip l) := by
  have hsymm : ∀ {m : List Char}, List.Chain' noTwoSpace m →
      List.Chain' noTwoSpace m.reverse := by
    intro m hm
    rw [List.chain'_reverse]
    exact hm.imp fun a b hab h2 => hab ⟨h2.2, h2.1⟩
  unfold pyStrip
  exact hsymm ((hsymm (h.suffix (List.dropWhile_suffix _))).suffix
    (List.dropWhile_suffix _))

/-- On a string with no two adjacent whitespace characters, the whitespace
collapse does nothing. -/
theorem collapseWsGo_eq_self (n : Nat) : ∀ (l : List Char),
    List.Chain' noTwoSpace l → collapseWsGo n l = l := by
  induction n with
  | zero =>
    intro l _
    rw [collapseWsGo]
  | succ n ih =>
    intro l hl
    rcases l with _ | ⟨c, l2⟩
    · rw [collapseWsGo]
    · rcases l2 with _ | ⟨d, rest⟩
      · rw [collapseWsGo]
      · rw [collapseWsGo]
        obtain ⟨hcd, htail⟩ := List.chain'_cons'.mp hl
        rw [if_neg fun hb => hcd d rfl (Bool.and_eq_true_iff.mp hb),
          ih (d :: rest) htail]

/-- A matching URL pattern contains a slash. -/
theorem urlAt_has_slash {l : List Char} (h : urlAt l = true) : '/' ∈ l := by
  unfold urlAt at h
  rcases Bool.or_eq_true_iff.mp h with h1 | h1
  · obtain ⟨t, ht⟩ := List.isPrefixOf_iff_prefix.mp (Bool.and_eq_true_iff.mp h1).1
    rw [← ht]
    exact List.mem_append_left t (by decide)
  · obtain ⟨t, ht⟩ := List.isPrefixOf_iff_prefix.mp (Bool.and_eq_true_iff.mp h1).1
    rw [← ht]
    exact List.mem_append_left t (by decide)

/-- On a slash-free string the URL scrub does nothing. -/
theorem removeUrlsGo_eq_self (n : Nat) : ∀ (l : List Char), '/' ∉ l →
    removeUrlsGo n l = l := by
  induction n with
  | zero =>
    intro l _
    rw [removeUrlsGo]
  | succ n ih =>
    intro l hl
    rcases l with _ | ⟨c, cs⟩
    · rw [removeUrlsGo]
    · rw [removeUrlsGo, if_neg fun hb => hl (urlAt_has_slash hb),
        ih cs fun hc => hl (List.mem_cons_of_mem c hc)]

/-- On a string of kept characters the character filter does nothing. -/
theorem charFilter_eq_self : ∀ {l : List Char},
    (∀ c ∈ l, keepChar c = true) → charFilter l = l := by
  intro l
  induction l with
  | nil =>
    intro _
    rfl
  | cons a t ih =>
    intro h
    show (if keepChar a = true then a else ' ') :: charFilter t = a :: t
    rw [if_pos (h a (List.mem_cons_self a t)),
      ih fun c hc => h c (List.mem_cons_of_mem a hc)]

/-- `Char.ofNat` round-trips on small code points. -/
theorem char_ofNat_toNat {m : Nat} (h : m ≤ 200) :
    (Char.ofNat m).toNat = m := by
  have hv : Nat.isValidChar m := Or.inl (by omega)
  rw [Char.ofNat, dif_pos hv]
  simp only [Char.toNat, Char.ofNatAux]
  simp [UInt32.toNat, UInt32.ofNat', BitVec.toNat_ofNat]

/-- Lowercasing only produces `<` from `<` itself. -/
theorem toLower_eq_lt {c : Char} (h : Char.toLower c = '<') : c = '<' := by
  have h' : (if c.toNat ≥ 65 ∧ c.toNat ≤ 90 then Char.ofNat (c.toNat + 32)
      else c) = '<' := h
  clear h
  rename' h' => h
  split at h
  · next hup =>
    have h2 : (Char.ofNat (c.toNat + 32)).toNat = c.toNat + 32 :=
      char_ofNat_toNat (by omega)
    rw [h] at h2
    have h60 : Char.toNat '<' = 60 := rfl
    omega
  · exact h

/-- A positive substring test for `a :: w` puts `a` in the haystack. -/
theorem containsSeq_head_mem {w hay : List Char} {a : Char}
    (hc : containsSeq (a :: w) hay = true) : a ∈ hay := by
  induction hay with
  | nil => simp [containsSeq] at hc
  | cons x t ih =>
    rw [containsSeq] at hc
    rcases Bool.or_eq_true_iff.mp hc with h1 | h1
    · have hax : (a == x) = true := by
        simp only [List.isPrefixOf] at h1
        exact (Bool.and_eq_true_iff.mp h1).1
      rw [eq_of_beq hax]
      exact List.mem_cons_self x t
    · exact List.mem_cons_of_mem x (ih h1)

/-- A string without `<` triggers no HTML heuristic. -/
theorem hasHtmlMarker_false {l : List Char} (h : '<' ∉ l) :
    hasHtmlMarker l = false := by
  by_contra hb
  rw [Bool.not_eq_false] at hb
  unfold hasHtmlMarker at hb
  have hlt : '<' ∈ lowerL l := by
    rcases Bool.or_eq_true_iff.mp hb with h1 | h1
    · rcases Bool.or_eq_true_iff.mp h1 with h2 | h2
      · have he : "<html".data = '<' :: "html".data := rfl
        rw [he] at h2
        exact containsSeq_head_mem h2
      · have he : "<div".data = '<' :: "div".data := rfl
        rw [he] at h2
        exact containsSeq_head_mem h2
    · have he : "<br".data = '<' :: "br".data := rfl
      rw [he] at h1
      exact containsSeq_head_mem h1
  obtain ⟨c, hcl, hcc⟩ := List.mem_map.mp hlt
  exact h (toLower_eq_lt hcc ▸ hcl)

/-- The structural invariants of every `cleanCore` output: only kept
characters, no line breaks, already stripped, no two adjacent whitespace
characters. -/
theorem cleanCore_props (raw : List Char) :
    (∀ c ∈ cleanCore raw, keepChar c = true) ∧
    (∀ c ∈ cleanCore raw, isLineBreakChar c = false) ∧
    pyStrip (cleanCore raw) = cleanCore raw ∧
    List.Chain' noTwoSpace (cleanCore raw) := by
  simp only [cleanCore]
  split
  · exact ⟨by simp, by simp, rfl, List.chain'_nil⟩
  · split
    · exact ⟨by simp, by simp, rfl, List.chain'_nil⟩
    · refine ⟨?_, ?_, pyStrip_idem _, chain'_pyStrip (chain'_collapseWsGo _ _
        le_rfl)⟩
      · intro c hc
        have h1 := mem_pyStrip hc
        rcases mem_collapseWsGo _ _ h1 with h2 | rfl
        · exact mem_charFilter_keep h2
        · decide
      · intro c hc
        have h1 := mem_pyStrip hc
        rcases mem_collapseWsGo _ _ h1 with h2 | rfl
        · rcases mem_charFilter_orig h2 with h3 | rfl
          · rcases mem_removeUrlsGo _ _ h3 with h4 | rfl
            · rcases mem_joinSpace _ h4 with ⟨line, hline, hcline⟩ | rfl
              · have h5 := List.mem_of_mem_filter hline
                obtain ⟨l0, hl0, rfl⟩ := List.mem_map.mp h5
                exact pySplitlines_no_break raw l0 hl0 c (mem_pyStrip hcline)
              · decide
            · decide
          · decide
        · decide

/-- A string that already satisfies all the invariants of a cleaned text —
kept characters only, no line breaks, stripped, no double whitespace,
length at least 10, and no header-pattern match — is a fixed point of the
cleaning core. -/
theorem cleanCore_fixed (y : List Char)
    (hkeep : ∀ c ∈ y, keepChar c = true)
    (hnb : ∀ c ∈ y, isLineBreakChar c = false)
    (hstrip : pyStrip y = y)
    (hchain : List.Chain' noTwoSpace y)
    (hlen : 10 ≤ y.length)
    (hhdr : headerMatch y = false) : cleanCore y = y := by
  have hne : y ≠ [] := by
    intro h
    rw [h] at hlen
    simp at hlen
  have hkept : keptLine y = true := by
    unfold keptLine
    rw [hhdr]
    have hgt : y.head? ≠ some '>' := by
      intro hh
      rcases y with _ | ⟨a, t⟩
      · cases hh
      · have hm := hkeep a (List.mem_cons_self a t)
        rw [Option.some.inj hh] at hm
        exact absurd hm (by decide)
    simp only [Bool.not_false, Bool.and_true, Bool.true_and,
      Bool.and_eq_true, bne_iff_ne, ne_eq, decide_eq_true_eq]
    refine ⟨⟨by simp [List.isEmpty_iff, hne], hgt⟩, by omega⟩
  have hlines : ((pySplitlines y).map pyStrip).filter keptLine = [y] := by
    rw [pySplitlines_single hne hnb]
    simp [hstrip, hkept]
  have hslash : '/' ∉ y := fun hmem => absurd (hkeep '/' hmem) (by decide)
  simp only [cleanCore]
  rw [hlines]
  rw [if_neg (by simp)]
  have hj : joinSpace [y] = y := rfl
  rw [hj]
  show (if (pyStrip (collapseWs (charFilter (removeUrls y)))).length < 10
    then [] else pyStrip (collapseWs (charFilter (removeUrls y)))) = y
  have h4 : removeUrls y = y := removeUrlsGo_eq_self _ _ hslash
  have h5 : charFilter y = y := charFilter_eq_self hkeep
  have h6 : collapseWs y = y := collapseWsGo_eq_self _ _ hchain
  rw [h4, h5, h6, hstrip]
  rw [if_neg (by omega)]

/-- C1 counterexample: on `"bcc\n: hello world"` the cleaner outputs
`"bcc : hello world"` (length 17, above the floor), joining the two lines
into a text that now matches `HEADER_RE` (`bcc` followed by whitespace and
a colon), so a second cleaning drops it entirely: `clean(clean(x)) = ""`
although `clean(x)` is 17 characters long. -/
theorem clean_email_text_not_idempotent_counterexample :
    (clean_email_text id "bcc\n: hello world".data).length = 17 ∧
    clean_email_text id (clean_email_text id "bcc\n: hello world".data) =
      [] ∧
    clean_email_text id "bcc\n: hello world".data ≠ [] := by
  exact ⟨by decide, by decide, by decide⟩

/-- C1 (amended): the text cleaner is idempotent above the length floor
except when the cleaned text itself matches the header-line pattern: for
every HTML stripper and every input `x`, if `clean_email_text(x)` has at
least 10 characters and `HEADER_RE` does not match it, then cleaning it
again returns it unchanged.  (The header case is a real exception: joining
surviving lines with spaces can create a line that starts with a header
label followed by a colon, which the second pass deletes.) -/
theorem clean_email_text_idempotent_no_header
    (stripHtml : List Char → List Char) (x : List Char)
    (hlen : 10 ≤ (clean_email_text stripHtml x).length)
    (hhdr : headerMatch (clean_email_text stripHtml x) = false) :
    clean_email_text stripHtml (clean_email_text stripHtml x) =
      clean_email_text stripHtml x := by
  have hcore : ∃ r, clean_email_text stripHtml x = cleanCore r := by
    unfold clean_email_text
    split_ifs with h1 h2
    · exact ⟨[], rfl⟩
    · exact ⟨stripHtml x, rfl⟩
    · exact ⟨x, rfl⟩
  obtain ⟨r, hr⟩ := hcore
  obtain ⟨hkeep, hnb, hstrip, hchain⟩ := cleanCore_props r
  rw [hr] at hlen hhdr ⊢
  have hne : cleanCore r ≠ [] := by
    intro h0
    rw [h0] at hlen
    simp at hlen
  have hnolt : '<' ∉ cleanCore r := fun hmem =>
    absurd (hkeep '<' hmem) (by decide)
  unfold clean_email_text
  rw [if_neg hne, hasHtmlMarker_false hnolt]
  simp only [Bool.false_eq_true, if_false]
  exact cleanCore_fixed _ hkeep hnb hstrip hchain hlen hhdr

/-- Witness for C1 on a header-free cleaned text: the status question from
the few-shot examples, cleaned once, is a fixed point. -/
theorem clean_email_text_idempotent_witness :
    clean_email_text id (clean_email_text id
      "Poderiam informar o status do chamado 12345?".data) =
    clean_email_text id "Poderiam informar o status do chamado 12345?".data :=
  clean_email_text_idempotent_no_header id
    "Poderiam informar o status do chamado 12345?".data (by decide)
    (by decide)

end EmailAnalyzer
